import Mathlib

/-!
Verification development for the `goit-cs-hw-05` repository.

`Task2` embeds `src/task_2.py`, the word-frequency MapReduce pipeline:
fetch → remove punctuation → split → map (lowercase, 1) → shuffle/reduce
(a `Counter` fold) → top-N ranking (`Counter.most_common`).

`Task1` embeds `src/task_1.py`, the file organizer: for every file found by
`rglob("*.*")` under the source tree, copy it into the destination subfolder
named after its extension, skipping when the destination file already exists.

Python strings are modelled as Lean `String` (a list of characters), Python
`dict`/`Counter` as insertion-ordered association lists (`List (String × Nat)`)
with Python's dict equality modelled extensionally over keys and values, and
filesystem / network effects as explicit state passing.
-/

namespace Task2

/-- The character set of Python `string.punctuation`, the characters deleted by
`TextProcessor.remove_punctuation` via `str.translate`: the 32 ASCII
punctuation characters, i.e. codepoints 33–47, 58–64, 91–96 and 123–126. -/
def isPunct (c : Char) : Bool :=
  let n := c.toNat
  (33 ≤ n && n ≤ 47) || (58 ≤ n && n ≤ 64) || (91 ≤ n && n ≤ 96) ||
    (123 ≤ n && n ≤ 126)

/-- `TextProcessor.remove_punctuation`: deletes every `string.punctuation`
character from the text (`str.translate` with a deletion table), leaving all
other characters in place. -/
def remove_punctuation (text : String) : String :=
  String.mk (text.data.filter (fun c => !isPunct c))

/-- The whitespace set of Python `str.split()` with no separator argument
(`Py_UNICODE_ISSPACE`): ASCII whitespace 9–13, the file/group/record/unit
separators 28–31, space 32, next line 133, no-break space 160, and the
Unicode space separators. -/
def isPySpace (c : Char) : Bool :=
  let n := c.toNat
  (9 ≤ n && n ≤ 13) || (28 ≤ n && n ≤ 32) || n == 133 || n == 160 ||
    n == 5760 || (8192 ≤ n && n ≤ 8202) || n == 8232 || n == 8233 ||
    n == 8239 || n == 8287 || n == 12288

/-- Helper for `pySplit`: walks the character list, accumulating the current
word (reversed) in `acc`; whitespace closes the current word, and no empty
word is ever emitted. -/
def splitAux : List Char → List Char → List String
  | [], acc => if acc.isEmpty then [] else [String.mk acc.reverse]
  | c :: cs, acc =>
    if isPySpace c then
      if acc.isEmpty then splitAux cs []
      else String.mk acc.reverse :: splitAux cs []
    else splitAux cs (c :: acc)

/-- Python `text.split()` with no arguments: splits on runs of whitespace and
never produces empty tokens. -/
def pySplit (text : String) : List String :=
  splitAux text.data []

/-- Python `str.lower()`, restricted to its ASCII case mapping. -/
def strLower (s : String) : String :=
  String.mk (s.data.map Char.toLower)

/-- `TextProcessor.map_function`: maps a word to `(word.lower(), 1)`. -/
def map_function (word : String) : String × Nat :=
  (strLower word, 1)

/-- `result[word] += count` on a Python `Counter`/`dict`: if the key is
present, its value is incremented in place; otherwise a new entry is appended
(missing keys of a `Counter` read as `0`). -/
def counterAdd : List (String × Nat) → String → Nat → List (String × Nat)
  | [], w, n => [(w, n)]
  | (k, v) :: rest, w, n =>
    if k = w then (k, v + n) :: rest else (k, v) :: counterAdd rest w n

/-- `TextProcessor.shuffle_and_reduce`: folds the mapped `(word, count)` pairs
into a `Counter`, starting from the empty one. -/
def shuffle_and_reduce (mapped_values : List (String × Nat)) :
    List (String × Nat) :=
  mapped_values.foldl (fun result p => counterAdd result p.1 p.2) []

/-- The map phase over a whole token sequence: `executor.map(map_function,
words)` yields the mapped pairs in input order. -/
def map_all (words : List String) : List (String × Nat) :=
  words.map map_function

/-- `TextProcessor.process_text`: remove punctuation, split into words, map
each word in parallel, then shuffle and reduce. -/
def process_text (text : String) : List (String × Nat) :=
  shuffle_and_reduce (map_all (pySplit (remove_punctuation text)))

/-- Reading a key of a Python `Counter`: the value of the entry holding the
key, `0` when absent. -/
def counterGet : List (String × Nat) → String → Nat
  | [], _ => 0
  | (k, v) :: rest, w => if k = w then v else counterGet rest w

/-- Key membership in a Python `dict`/`Counter`. -/
def counterMem : List (String × Nat) → String → Bool
  | [], _ => false
  | (k, _) :: rest, w => if k = w then true else counterMem rest w

/-- Python `dict` equality of two counters: the same keys are present and each
common key holds the same value; insertion order is irrelevant. -/
def counterBeq (a b : List (String × Nat)) : Bool :=
  a.all (fun p => counterMem b p.1 && counterGet b p.1 == p.2) &&
    b.all (fun p => counterMem a p.1)

/-- The sum of all counts stored in a counter. -/
def counterTotal (c : List (String × Nat)) : Nat :=
  (c.map Prod.snd).sum

/-- `Counter.most_common(n)`: the entries sorted by count descending (a stable
sort, `heapq.nlargest` ≍ `sorted(..., reverse=True)[:n]`), truncated to the
first `n`; any `n ≤ 0` yields the empty list. -/
def most_common (c : List (String × Nat)) (n : Int) : List (String × Nat) :=
  (c.mergeSort (fun a b => b.2 ≤ a.2)).take n.toNat

/-- The spec's pipeline entry point `process(raw_text, top_n)`: the composition
of `process_text` with the ranker (`most_common`, as `DataVisualizer.visualize`
applies it to the frequency table). -/
def process (text : String) (top_n : Int) : List (String × Nat) :=
  most_common (process_text text) top_n

/-- `DataVisualizer.visualize` up to its data step: takes the top-N entries and
unpacks `words, counts = zip(*top_words)`; on an empty top-N list, `zip(*[])`
yields no tuples and the two-name unpacking raises `ValueError`, modelled as
`Except.error`. -/
def visualize (word_counts : List (String × Nat)) (top_n : Int) :
    Except String (List String × List Nat) :=
  match most_common word_counts top_n with
  | [] => Except.error "not enough values to unpack"
  | top_words => Except.ok (top_words.map Prod.fst, top_words.map Prod.snd)

/-- `requests.Response.raise_for_status`: raises `HTTPError` exactly for
status codes 400–599. -/
def raise_for_status (status : Nat) : Bool :=
  400 ≤ status && status < 600

/-- `TextFetcher.fetch`, with the network interaction passed in explicitly:
`Except.error` is a `requests.RequestException` raised by `requests.get`, and
`Except.ok (status, body)` the response it returns. On an exception, or when
`raise_for_status` raises (status 400–599), the exception is caught, logged,
and `None` is returned; otherwise the response body is returned. -/
def fetch (result : Except String (Nat × String)) : Option String :=
  match result with
  | Except.error _ => none
  | Except.ok (status, body) =>
    if raise_for_status status then none else some body

/-- Outcome of the `__main__` block: either the pipeline (and visualizer) ran
on fetched text, or the run stopped at the final `logging.error` branch. -/
inductive RunOutcome where
  | ranPipeline (word_counts : List (String × Nat)) : RunOutcome
  | loggedFetchFailure : RunOutcome
deriving DecidableEq

/-- The `__main__` guard: fetch, then `if text:` — the pipeline and visualizer
run only when `fetch` returned a non-empty text (Python truthiness); otherwise
the failure is logged and the run terminates. -/
def mainRun (result : Except String (Nat × String)) : RunOutcome :=
  match fetch result with
  | some text =>
    if text == "" then RunOutcome.loggedFetchFailure
    else RunOutcome.ranPipeline (process_text text)
  | none => RunOutcome.loggedFetchFailure

/-- ASCII letters: the word characters the spec promises the normalizer keeps. -/
def isAsciiLetter (c : Char) : Bool :=
  let n := c.toNat
  (65 ≤ n && n ≤ 90) || (97 ≤ n && n ≤ 122)

/-- ASCII digits. -/
def isAsciiDigit (c : Char) : Bool :=
  let n := c.toNat
  48 ≤ n && n ≤ 57

/-- The per-word contribution of a pair list to one key: the sum of the counts
of the pairs whose word is `w`. -/
def sumFor (l : List (String × Nat)) (w : String) : Nat :=
  (l.map (fun p => if p.1 = w then p.2 else 0)).sum

/-- The keys of a counter, in insertion order. -/
def counterKeys (c : List (String × Nat)) : List String :=
  c.map Prod.fst

end Task2

namespace Task1

/-- `PurePath.suffix` of pathlib: the extension of the final path component,
including the leading dot; empty unless the last dot of the name lies strictly
between the first and last character. -/
def suffix (name : String) : String :=
  let r := name.data.reverse
  let ext := r.takeWhile (fun c => c ≠ '.')
  match r.dropWhile (fun c => c ≠ '.') with
  | [] => ""
  | _ :: before =>
    if before.isEmpty || ext.isEmpty then "" else String.mk ('.' :: ext.reverse)

/-- `file.suffix[1:]` in `FileOrganizer.copy_file`: the extension without the
leading dot. -/
def extension (name : String) : String :=
  (suffix name).drop 1

/-- The glob pattern `*.*` used by `read_folder`'s `rglob`: it matches exactly
the names that contain a dot. -/
def matchesGlob (name : String) : Bool :=
  name.data.contains '.'

/-- The destination tree: the set of extension subfolders created so far, and
the files present, keyed by (extension folder, file name). -/
structure DestState where
  dirs : List String
  files : List ((String × String) × String)
deriving DecidableEq

/-- Association-list lookup for the destination files, first match wins. -/
def lookupAssoc : List ((String × String) × String) → String × String →
    Option String
  | [], _ => none
  | (k, v) :: rest, key => if k = key then some v else lookupAssoc rest key

/-- The file stored in the destination under `<ext>/<name>`, if any. -/
def lookupFile (st : DestState) (ext name : String) : Option String :=
  lookupAssoc st.files (ext, name)

/-- `dest_folder.mkdir(exist_ok=True)`: creates the extension subfolder when it
does not exist yet. -/
def mkdirIfAbsent (st : DestState) (ext : String) : DestState :=
  if st.dirs.contains ext then st else ⟨ext :: st.dirs, st.files⟩

/-- `FileOrganizer.copy_file`: computes the extension, creates the destination
subfolder if absent, then copies the file there unless the destination file
already exists, in which case it logs a warning and skips (the existing file
is left unchanged). -/
def copy_file (st : DestState) (name content : String) : DestState :=
  let ext := extension name
  let st1 := mkdirIfAbsent st ext
  match lookupFile st1 ext name with
  | some _ => st1
  | none => ⟨st1.dirs, ((ext, name), content) :: st1.files⟩

/-- `FileOrganizer.read_folder`: iterates over `folder.rglob("*.*")` — the
files under the source tree whose name contains a dot — and copies each one;
`sourceFiles` lists the files of the source tree as (name, content). -/
def read_folder (st : DestState) (sourceFiles : List (String × String)) :
    DestState :=
  (sourceFiles.filter (fun f => matchesGlob f.1)).foldl
    (fun st f => copy_file st f.1 f.2) st

end Task1

namespace Task2

theorem counterGet_counterAdd (c : List (String × Nat)) (k w : String)
    (n : Nat) :
    counterGet (counterAdd c k n) w
      = counterGet c w + (if k = w then n else 0) := by
  induction c with
  | nil => simp [counterAdd, counterGet]
  | cons p rest ih =>
    obtain ⟨a, b⟩ := p
    simp only [counterAdd]
    split_ifs with h1 <;> simp only [counterGet] <;>
      split_ifs with h2 <;> simp_all [counterGet]

theorem counterMem_counterAdd (c : List (String × Nat)) (k w : String)
    (n : Nat) :
    counterMem (counterAdd c k n) w = true
      ↔ (counterMem c w = true ∨ k = w) := by
  induction c with
  | nil => simp [counterAdd, counterMem]
  | cons p rest ih =>
    obtain ⟨a, b⟩ := p
    simp only [counterAdd]
    split_ifs with h1 <;> simp only [counterMem] <;>
      split_ifs with h2 <;> simp_all

theorem counterMem_of_mem {c : List (String × Nat)} {p : String × Nat}
    (hp : p ∈ c) : counterMem c p.1 = true := by
  induction c with
  | nil => cases hp
  | cons q rest ih =>
    obtain ⟨a, b⟩ := q
    rcases List.mem_cons.mp hp with h | h
    · simp [counterMem, h]
    · simp only [counterMem]
      split_ifs <;> simp [ih h]


theorem mem_counterKeys_counterAdd {c : List (String × Nat)} {k : String}
    {n : Nat} {w : String} :
    w ∈ counterKeys (counterAdd c k n) ↔ w ∈ counterKeys c ∨ w = k := by
  induction c with
  | nil => simp [counterAdd, counterKeys]
  | cons p rest ih =>
    obtain ⟨a, b⟩ := p
    simp only [counterAdd]
    split_ifs with h1 <;> simp_all [counterKeys] <;> tauto

theorem counterKeys_nodup_counterAdd {c : List (String × Nat)} {k : String}
    {n : Nat} (h : (counterKeys c).Nodup) :
    (counterKeys (counterAdd c k n)).Nodup := by
  induction c with
  | nil => simp [counterAdd, counterKeys]
  | cons p rest ih =>
    obtain ⟨a, b⟩ := p
    simp only [counterKeys, List.map_cons, List.nodup_cons] at h
    simp only [counterAdd]
    split_ifs with h1
    · simp only [counterKeys, List.map_cons, List.nodup_cons]
      exact h
    · simp only [counterKeys, List.map_cons, List.nodup_cons]
      refine ⟨fun hmem => ?_, ih h.2⟩
      rcases mem_counterKeys_counterAdd.mp hmem with hm | hm
      · exact h.1 hm
      · exact h1 hm

theorem counterGet_of_mem {c : List (String × Nat)}
    (h : (counterKeys c).Nodup) {p : String × Nat} (hp : p ∈ c) :
    counterGet c p.1 = p.2 := by
  induction c with
  | nil => cases hp
  | cons q rest ih =>
    obtain ⟨a, b⟩ := q
    simp only [counterKeys, List.map_cons, List.nodup_cons] at h
    rcases List.mem_cons.mp hp with hq | hq
    · subst hq; simp [counterGet]
    · simp only [counterGet]
      split_ifs with h1
      · exfalso
        apply h.1
        rw [h1]
        exact List.mem_map_of_mem Prod.fst hq
      · exact ih h.2 hq

theorem counterGet_foldl (l acc : List (String × Nat)) (w : String) :
    counterGet (l.foldl (fun result p => counterAdd result p.1 p.2) acc) w
      = counterGet acc w + sumFor l w := by
  induction l generalizing acc with
  | nil => simp [sumFor]
  | cons p rest ih =>
    simp only [List.foldl_cons, ih, counterGet_counterAdd, sumFor,
      List.map_cons, List.sum_cons]
    omega

theorem counterMem_foldl (l acc : List (String × Nat)) (w : String) :
    counterMem (l.foldl (fun result p => counterAdd result p.1 p.2) acc) w
        = true
      ↔ (counterMem acc w = true ∨ ∃ p ∈ l, p.1 = w) := by
  induction l generalizing acc with
  | nil => simp
  | cons p rest ih =>
    simp only [List.foldl_cons, ih, counterMem_counterAdd, List.mem_cons]
    constructor
    · rintro (⟨h | h⟩ | ⟨q, hq, hqw⟩)
      · exact Or.inl h
      · exact Or.inr ⟨p, Or.inl rfl, h⟩
      · exact Or.inr ⟨q, Or.inr hq, hqw⟩
    · rintro (h | ⟨q, hq | hq, hqw⟩)
      · exact Or.inl (Or.inl h)
      · subst hq; exact Or.inl (Or.inr hqw)
      · exact Or.inr ⟨q, hq, hqw⟩

theorem counterKeys_nodup_foldl (l acc : List (String × Nat))
    (h : (counterKeys acc).Nodup) :
    (counterKeys
      (l.foldl (fun result p => counterAdd result p.1 p.2) acc)).Nodup := by
  induction l generalizing acc with
  | nil => exact h
  | cons p rest ih =>
    simp only [List.foldl_cons]
    exact ih _ (counterKeys_nodup_counterAdd h)

theorem counterGet_shuffle (l : List (String × Nat)) (w : String) :
    counterGet (shuffle_and_reduce l) w = sumFor l w := by
  simp [shuffle_and_reduce, counterGet_foldl, counterGet]

theorem counterMem_shuffle (l : List (String × Nat)) (w : String) :
    counterMem (shuffle_and_reduce l) w = true ↔ ∃ p ∈ l, p.1 = w := by
  simp [shuffle_and_reduce, counterMem_foldl, counterMem]

theorem counterKeys_nodup_shuffle (l : List (String × Nat)) :
    (counterKeys (shuffle_and_reduce l)).Nodup :=
  counterKeys_nodup_foldl l [] (by simp [counterKeys])

theorem sumFor_of_perm {l1 l2 : List (String × Nat)} (h : l1.Perm l2)
    (w : String) : sumFor l1 w = sumFor l2 w :=
  List.Perm.sum_eq (h.map _)

theorem counterBeq_shuffle_of_perm (l1 l2 : List (String × Nat))
    (h : l1.Perm l2) :
    counterBeq (shuffle_and_reduce l1) (shuffle_and_reduce l2) = true := by
  unfold counterBeq
  rw [Bool.and_eq_true, List.all_eq_true, List.all_eq_true]
  constructor
  · intro p hp
    rw [Bool.and_eq_true]
    constructor
    · rw [counterMem_shuffle]
      obtain ⟨q, hq, hqw⟩ := (counterMem_shuffle l1 p.1).mp
        (counterMem_of_mem hp)
      exact ⟨q, h.mem_iff.mp hq, hqw⟩
    · have hget : counterGet (shuffle_and_reduce l1) p.1 = p.2 :=
        counterGet_of_mem (counterKeys_nodup_shuffle l1) hp
      rw [counterGet_shuffle] at hget
      rw [counterGet_shuffle, ← sumFor_of_perm h, hget, beq_self_eq_true]
  · intro p hp
    rw [counterMem_shuffle]
    obtain ⟨q, hq, hqw⟩ := (counterMem_shuffle l2 p.1).mp
      (counterMem_of_mem hp)
    exact ⟨q, h.mem_iff.mpr hq, hqw⟩

/-- C1: for every sequence of mapped (word, count) pairs and every permutation
of that sequence, `shuffle_and_reduce` produces the same frequency table
(equal as a Python dict: same keys, same counts). -/
theorem shuffle_and_reduce_order_invariant (l1 l2 : List (String × Nat))
    (h : l1.Perm l2) :
    counterBeq (shuffle_and_reduce l1) (shuffle_and_reduce l2) = true :=
  counterBeq_shuffle_of_perm l1 l2 h

/-- Witness for C1 at a concrete permutation of mapped pairs. -/
theorem shuffle_and_reduce_order_invariant_witness :
    counterBeq (shuffle_and_reduce [("a", 1), ("b", 1), ("a", 1)])
      (shuffle_and_reduce [("b", 1), ("a", 1), ("a", 1)]) = true :=
  shuffle_and_reduce_order_invariant _ _
    (List.Perm.swap ("b", 1) ("a", 1) [("a", 1)])

/-- C3: mapping the tokens sequentially and collecting the parallel map
results in any order (the workers return the same pairs, as a multiset),
followed by the same reduce, produce identical frequency tables. -/
theorem parallel_map_matches_sequential (tokens : List String)
    (collected : List (String × Nat)) (h : collected.Perm (map_all tokens)) :
    counterBeq (shuffle_and_reduce collected)
      (shuffle_and_reduce (map_all tokens)) = true :=
  counterBeq_shuffle_of_perm _ _ h

/-- Witness for C3: an out-of-order collection of the mapped pairs of
`["A", "b", "a"]` reduces to the same table as the in-order one. -/
theorem parallel_map_matches_sequential_witness :
    counterBeq (shuffle_and_reduce [("b", 1), ("a", 1), ("a", 1)])
      (shuffle_and_reduce (map_all ["A", "b", "a"])) = true :=
  parallel_map_matches_sequential ["A", "b", "a"] _
    (List.Perm.swap ("a", 1) ("b", 1) [("a", 1)])

theorem counterTotal_counterAdd (c : List (String × Nat)) (k : String)
    (n : Nat) :
    counterTotal (counterAdd c k n) = counterTotal c + n := by
  induction c with
  | nil => simp [counterAdd, counterTotal]
  | cons p rest ih =>
    obtain ⟨a, b⟩ := p
    simp only [counterAdd]
    split_ifs <;> simp_all [counterTotal] <;> omega

theorem counterTotal_foldl (l acc : List (String × Nat)) :
    counterTotal (l.foldl (fun result p => counterAdd result p.1 p.2) acc)
      = counterTotal acc + (l.map Prod.snd).sum := by
  induction l generalizing acc with
  | nil => simp
  | cons p rest ih =>
    simp only [List.foldl_cons, ih, counterTotal_counterAdd, List.map_cons,
      List.sum_cons]
    omega

/-- C2: the sum of all counts in the frequency table produced by
`process_text` equals the number of tokens obtained by splitting the
punctuation-stripped text on whitespace runs. -/
theorem process_text_conservation (text : String) :
    counterTotal (process_text text)
      = (pySplit (remove_punctuation text)).length := by
  unfold process_text shuffle_and_reduce
  rw [counterTotal_foldl]
  simp [counterTotal, map_all, map_function, List.map_map, Function.comp_def]

/-- C4: `most_common` returns a sequence of length `min n |freq|` when
`n > 0`, sorted by count descending, and the empty sequence for `n ≤ 0`. -/
theorem most_common_contract (freq : List (String × Nat)) (n : Int) :
    (0 < n →
      (most_common freq n).length = min n.toNat freq.length ∧
        (most_common freq n).Pairwise
          (fun a b : String × Nat => b.2 ≤ a.2)) ∧
    (n ≤ 0 → most_common freq n = []) := by
  constructor
  · intro _
    refine ⟨by simp [most_common], ?_⟩
    have hs : (freq.mergeSort (fun a b : String × Nat => b.2 ≤ a.2)).Pairwise
        (fun a b : String × Nat => (decide (b.2 ≤ a.2) : Bool) = true) :=
      List.sorted_mergeSort
        (by intro a b c h1 h2; simp only [decide_eq_true_eq] at *; omega)
        (by intro a b
            rcases Nat.le_total b.2 a.2 with h | h <;> simp [h]) freq
    exact List.Pairwise.sublist (List.take_sublist _ _)
      (hs.imp fun h => of_decide_eq_true h)
  · intro h
    simp [most_common, Int.toNat_of_nonpos h]

/-- Witness for C4 at a three-entry table with `n = 2` and `n = -1`. -/
theorem most_common_contract_witness :
    ((most_common [("a", 1), ("b", 3), ("c", 2)] 2).length
        = min (2 : Int).toNat [("a", 1), ("b", 3), ("c", 2)].length ∧
      (most_common [("a", 1), ("b", 3), ("c", 2)] 2).Pairwise
        (fun a b : String × Nat => b.2 ≤ a.2)) ∧
    most_common [("a", 1), ("b", 3), ("c", 2)] (-1) = [] :=
  ⟨(most_common_contract [("a", 1), ("b", 3), ("c", 2)] 2).1 (by decide),
    (most_common_contract [("a", 1), ("b", 3), ("c", 2)] (-1)).2 (by decide)⟩

theorem most_common_nil (n : Int) : most_common [] n = [] := by
  simp [most_common]

/-- C5: the full pipeline on the empty text with `top_n = 10` returns the
empty ranked sequence (and, being a total function, raises no error). -/
theorem process_empty_returns_nil : process "" 10 = [] := by
  have h : process_text "" = [] := rfl
  rw [process, h, most_common_nil]

/-- C10: on an empty frequency table, `visualize` fails at
`words, counts = zip(*top_words)` — unpacking the empty list raises — for
every `top_n`; it never returns normally on empty input. -/
theorem visualize_empty_table_errors (top_n : Int) :
    visualize [] top_n = Except.error "not enough values to unpack" := by
  rw [visualize, most_common_nil]

/-- C7: `remove_punctuation` is idempotent — after one pass no punctuation
remains, so a second pass changes nothing. -/
theorem remove_punctuation_idempotent (x : String) :
    remove_punctuation (remove_punctuation x) = remove_punctuation x := by
  simp [remove_punctuation, List.filter_filter]

theorem kept_char_not_punct (c : Char)
    (h : (isAsciiLetter c || isAsciiDigit c || isPySpace c) = true) :
    isPunct c = false := by
  simp only [isAsciiLetter, isAsciiDigit, isPySpace, isPunct,
    Bool.or_eq_true, Bool.and_eq_true, decide_eq_true_eq, beq_iff_eq,
    Bool.or_eq_false_iff, Bool.and_eq_false_iff, decide_eq_false_iff_not,
    Nat.not_le, Nat.not_lt] at *
  omega

/-- C6: `remove_punctuation` removes every ASCII punctuation character and
keeps all remaining characters in place and order — in particular every
ASCII letter, digit and whitespace character is kept with its multiplicity —
and it maps the empty string to the empty string (it is a total function, so
it never throws). -/
theorem remove_punctuation_contract (s : String) :
    (∀ c ∈ (remove_punctuation s).data, isPunct c = false) ∧
    List.Sublist (remove_punctuation s).data s.data ∧
    (∀ c : Char, (isAsciiLetter c || isAsciiDigit c || isPySpace c) = true →
      (remove_punctuation s).data.count c = s.data.count c) ∧
    remove_punctuation "" = "" := by
  refine ⟨?_, ?_, ?_, rfl⟩
  · intro c hc
    have hm : c ∈ s.data ∧ isPunct c = false := by
      simpa [remove_punctuation] using hc
    exact hm.2
  · simpa [remove_punctuation] using List.filter_sublist s.data
  · intro c h
    have hnp : isPunct c = false := kept_char_not_punct c h
    simp [remove_punctuation, List.count_filter, hnp]

/-- Witness for C6: counting a kept letter before and after normalization of
a concrete string. -/
theorem remove_punctuation_contract_witness :
    (remove_punctuation (String.mk ['a', '!', 'b', 'a'])).data.count 'a'
      = (String.mk ['a', '!', 'b', 'a']).data.count 'a' :=
  (remove_punctuation_contract (String.mk ['a', '!', 'b', 'a'])).2.2.1 'a'
    (by decide)

/-- C8 counterexample: a non-2xx response need not be a fetch failure — on a
301 response with a non-empty body, `raise_for_status` does not raise (it
raises only for 400–599), `fetch` returns the body, and the run invokes the
pipeline. -/
theorem mainRun_runs_on_non2xx_status :
    mainRun (Except.ok (301, "hello"))
        = RunOutcome.ranPipeline (process_text "hello") ∧
      ¬ (200 ≤ 301 ∧ 301 < 300) :=
  ⟨rfl, by decide⟩

/-- C8 (amended): if the fetch fails — `requests.get` raises a network error,
or the HTTP status is in 400–599 so that `raise_for_status` raises — the run
logs the failure and terminates without invoking the pipeline or the
visualizer. -/
theorem mainRun_fetch_failure_skips_pipeline
    (result : Except String (Nat × String))
    (h : (∃ e, result = Except.error e) ∨
      ∃ s b, result = Except.ok (s, b) ∧ 400 ≤ s ∧ s < 600) :
    mainRun result = RunOutcome.loggedFetchFailure := by
  rcases h with ⟨e, rfl⟩ | ⟨s, b, rfl, h1, h2⟩
  · rfl
  · have hr : raise_for_status s = true := by
      simp only [raise_for_status, Bool.and_eq_true, decide_eq_true_eq]
      omega
    simp [mainRun, fetch, hr]

/-- Witness for C8 (amended): a 404 response and a network error both end in
the logged-failure branch. -/
theorem mainRun_fetch_failure_skips_pipeline_witness :
    mainRun (Except.ok (404, "x")) = RunOutcome.loggedFetchFailure ∧
      mainRun (Except.error "timeout") = RunOutcome.loggedFetchFailure :=
  ⟨mainRun_fetch_failure_skips_pipeline _
      (Or.inr ⟨404, "x", rfl, by decide, by decide⟩),
    mainRun_fetch_failure_skips_pipeline _ (Or.inl ⟨"timeout", rfl⟩)⟩

end Task2

namespace Task1

theorem mkdirIfAbsent_files (st : DestState) (e : String) :
    (mkdirIfAbsent st e).files = st.files := by
  rw [mkdirIfAbsent]
  split_ifs <;> rfl

theorem mkdirIfAbsent_dirs_contains (st : DestState) (e : String) :
    (mkdirIfAbsent st e).dirs.contains e = true := by
  rw [mkdirIfAbsent]
  split_ifs with h
  · exact h
  · simp

theorem lookupFile_mkdirIfAbsent (st : DestState) (e ext name : String) :
    lookupFile (mkdirIfAbsent st e) ext name = lookupFile st ext name := by
  rw [lookupFile, lookupFile, mkdirIfAbsent_files]

theorem copy_file_dirs_contains (st : DestState) (name content : String) :
    (copy_file st name content).dirs.contains (extension name) = true := by
  simp only [copy_file]
  split
  · exact mkdirIfAbsent_dirs_contains st (extension name)
  · exact mkdirIfAbsent_dirs_contains st (extension name)

theorem copy_file_files_absent (st : DestState) (name content : String)
    (h : lookupFile st (extension name) name = none) :
    (copy_file st name content).files
      = ((extension name, name), content) :: st.files := by
  simp only [copy_file]
  rw [lookupFile_mkdirIfAbsent, h, mkdirIfAbsent_files]

theorem copy_file_files_present (st : DestState) (name content c : String)
    (h : lookupFile st (extension name) name = some c) :
    (copy_file st name content).files = st.files := by
  simp only [copy_file]
  rw [lookupFile_mkdirIfAbsent, h, mkdirIfAbsent_files]

theorem lookupAssoc_cons_self (k : String × String) (v : String)
    (rest : List ((String × String) × String)) :
    lookupAssoc ((k, v) :: rest) k = some v := by
  simp [lookupAssoc]

theorem read_folder_singleton (st : DestState) (name content : String)
    (h : matchesGlob name = true) :
    read_folder st [(name, content)] = copy_file st name content := by
  simp [read_folder, h]

/-- C9 (amended): for every file under the source tree whose name matches the
`rglob("*.*")` pattern — i.e. contains a dot — the organizer copies it into
`<dest>/<extension-without-dot>/<filename>`, creating the extension subfolder
if it is absent, and skips the copy when the destination file already exists,
leaving the existing destination files unchanged. -/
theorem copy_file_contract (st : DestState) (name content : String)
    (hglob : matchesGlob name = true) :
    (lookupFile st (extension name) name = none →
      lookupFile (read_folder st [(name, content)]) (extension name) name
          = some content ∧
        (read_folder st [(name, content)]).dirs.contains (extension name)
          = true) ∧
    ∀ c, lookupFile st (extension name) name = some c →
      (read_folder st [(name, content)]).files = st.files := by
  rw [read_folder_singleton st name content hglob]
  refine ⟨fun habs => ⟨?_, copy_file_dirs_contains st name content⟩,
    fun c hpres => copy_file_files_present st name content c hpres⟩
  rw [lookupFile, copy_file_files_absent st name content habs]
  exact lookupAssoc_cons_self _ _ _

/-- C9 counterexample: a file whose name has no dot ("README") is not matched
by `rglob("*.*")` and is never copied — starting from an empty destination,
the destination still holds no file at all afterwards — refuting the claim
for "every file under the source tree". -/
theorem read_folder_ignores_dotless_file :
    (read_folder ⟨[], []⟩ [("README", "readme-text")]).files = [] ∧
      matchesGlob "README" = false :=
  ⟨rfl, rfl⟩

/-- Witness for C9 (amended): a fresh copy of "a.txt" lands under "txt", and
a second copy onto an existing destination file leaves the old content. -/
theorem copy_file_contract_witness :
    lookupFile (read_folder ⟨[], []⟩ [("a.txt", "x")]) (extension "a.txt")
        "a.txt" = some "x" ∧
      (read_folder ⟨["txt"], [(("txt", "a.txt"), "old")]⟩
          [("a.txt", "new")]).files = [(("txt", "a.txt"), "old")] :=
  ⟨((copy_file_contract ⟨[], []⟩ "a.txt" "x" (by decide)).1 rfl).1,
    (copy_file_contract ⟨["txt"], [(("txt", "a.txt"), "old")]⟩ "a.txt" "new"
      (by decide)).2 "old" rfl⟩

end Task1
